import Mathlib

/-!
Verification of the game-engine core of the `my-chatbot` repository
(`src/app/page.tsx`): a 6x6 Othello engine and a variant tic-tac-toe
engine with a 3-mark carry limit.

The definitions below are a shallow embedding of the TypeScript source.
Board cells hold the strings `''`, `'black'`, `'white'` (Othello) and
`null`, `'○'`, `'×'` (tic-tac-toe); they are embedded as small inductive
types.  JavaScript `while` loops over board lines are embedded as
fuel-indexed recursions (fuel 6 suffices on a 6-wide board: a scan that
starts in bounds and moves one cell per step leaves the board after at
most 6 steps, so the fuel never runs out before the loop condition
fails).  `Math.random()`-based choices are embedded as explicit `Nat`
choice parameters reduced modulo the length of the list being sampled.
-/

namespace MyChatbot

namespace Othello

/-- Othello cell value: the source stores the strings `''`, `'black'`,
`'white'` in `board: string[][]`. -/
inductive Disc where
  | empty
  | black
  | white
deriving DecidableEq, Repr

/-- A 6x6 Othello board, embedded as a total function on integer
coordinates; the source only ever reads cells after an explicit bounds
check, so the values outside `[0,6) x [0,6)` are never inspected. -/
def OBoard : Type := Int → Int → Disc

/-- `player === 'black' ? 'white' : 'black'` (both engines only call this
on `black`/`white`). -/
def opponentOf : Disc → Disc
  | Disc.black => Disc.white
  | Disc.white => Disc.black
  | Disc.empty => Disc.empty

/-- The 8 direction vectors used by `findLegalMoves` and
`getFlippedDiscs`. -/
def directions : List (Int × Int) :=
  [(-1, -1), (-1, 0), (-1, 1), (0, -1), (0, 1), (1, -1), (1, 0), (1, 1)]

/-- `r >= 0 && r < 6 && c >= 0 && c < 6`. -/
def inBounds (r c : Int) : Bool :=
  0 ≤ r ∧ r < 6 ∧ 0 ≤ c ∧ c < 6

/-- The shared `while` loop of `findLegalMoves` and `getFlippedDiscs`:
starting at `(r, c)`, walk in direction `(dr, dc)` while the cell is in
bounds and holds `opp`, collecting the visited cells (the source's
`tempFlipped`; `foundOpponent` is this list being nonempty), and return
the final coordinates when the walk stops. -/
def scanRun (b : OBoard) (opp : Disc) (dr dc : Int) :
    Nat → Int → Int → List (Int × Int) × Int × Int
  | 0, r, c => ([], r, c)
  | fuel + 1, r, c =>
    if inBounds r c ∧ b r c = opp then
      let rest := scanRun b opp dr dc fuel (r + dr) (c + dc)
      ((r, c) :: rest.1, rest.2)
    else ([], r, c)

/-- The contribution of one direction in `getFlippedDiscs`: the scanned
opponent run, kept only when it is nonempty and bracketed by a disc of
`player` (`tempFlipped.length > 0 && inBounds && board[r][c] === player`).
The same test decides direction validity inside `findLegalMoves`. -/
def dirFlips (b : OBoard) (player : Disc) (row col : Int) (d : Int × Int) :
    List (Int × Int) :=
  let opp := opponentOf player
  let run := scanRun b opp d.1 d.2 6 (row + d.1) (col + d.2)
  if run.1 ≠ [] ∧ inBounds run.2.1 run.2.2 ∧ b run.2.1 run.2.2 = player then
    run.1
  else []

/-- `getFlippedDiscs(board, row, col, player)`: concatenation of the
per-direction flips, in the source's direction order. -/
def getFlippedDiscs (b : OBoard) (row col : Int) (player : Disc) :
    List (Int × Int) :=
  directions.flatMap (dirFlips b player row col)

def coords6 : List Int := [0, 1, 2, 3, 4, 5]

/-- `findLegalMoves(board, player)`: every empty cell from which some
direction has a nonempty opponent run bracketed by `player` (the source
pushes the cell and `break`s at the first valid direction). -/
def findLegalMoves (b : OBoard) (player : Disc) : List (Int × Int) :=
  coords6.flatMap fun row =>
    coords6.flatMap fun col =>
      if b row col = Disc.empty ∧
          directions.any (fun d => ¬ dirFlips b player row col d = []) then
        [(row, col)]
      else []

/-- `board[r][c] = v` on a single cell. -/
def setCellO (b : OBoard) (r c : Int) (v : Disc) : OBoard :=
  fun r' c' => if r' = r ∧ c' = c then v else b r' c'

/-- `for (const [r, c] of flippedDiscs) board[r][c] = v`. -/
def applyFlips (b : OBoard) (flips : List (Int × Int)) (v : Disc) : OBoard :=
  flips.foldl (fun acc p => setCellO acc p.1 p.2 v) b

/-- The disc-counting double loop repeated in `initOthelloBoard`,
`placeDisc` and `makeAIMove`. -/
def countDiscs (b : OBoard) (v : Disc) : Nat :=
  coords6.foldl
    (fun acc r =>
      coords6.foldl (fun acc2 c => if b r c = v then acc2 + 1 else acc2) acc)
    0

/-- `OthelloState` from the source. -/
structure OthelloState where
  board : OBoard
  currentPlayer : Disc
  gameOver : Bool
  blackCount : Nat
  whiteCount : Nat
  skipTurn : Bool

/-- The initial board laid out by `initOthelloBoard`: `mid = 2`, white at
`(2,2)` and `(3,3)`, black at `(2,3)` and `(3,2)`. -/
def initialBoard : OBoard := fun r c =>
  if (r = 2 ∧ c = 2) ∨ (r = 3 ∧ c = 3) then Disc.white
  else if (r = 2 ∧ c = 3) ∨ (r = 3 ∧ c = 2) then Disc.black
  else Disc.empty

/-- `initOthelloBoard()`: initial state, counts recomputed from the
board. -/
def initOthelloBoard : OthelloState :=
  { board := initialBoard
    currentPlayer := Disc.black
    gameOver := false
    blackCount := countDiscs initialBoard Disc.black
    whiteCount := countDiscs initialBoard Disc.white
    skipTurn := false }

/-- Place a disc of `p` at `(row, col)` and apply the resulting flips:
the `board[row][col] = p; flips = getFlippedDiscs(board, row, col, p);
for (...) board[r][c] = p` sequence shared by `placeDisc`, `makeAIMove`
and the `testBoard` constructions inside the AI loops (the source
computes the flips on the board that already holds the new disc; the
scan only ever moves away from `(row, col)`, so this is equivalent to
computing them first). -/
def newBoardAfter (b : OBoard) (row col : Int) (p : Disc) : OBoard :=
  let b0 := setCellO b row col p
  applyFlips b0 (getFlippedDiscs b0 row col p) p

/-- `placeDisc(row, col)`: the human (Black) move handler.  No-op when
the game is over, the cell is occupied, or the move is illegal; otherwise
places the disc, applies the flips, recomputes both counts and resolves
turn passing / skipping / game over. -/
def placeDisc (s : OthelloState) (row col : Int) : OthelloState :=
  if s.gameOver ∨ ¬ s.board row col = Disc.empty then s
  else if ¬ (row, col) ∈ findLegalMoves s.board Disc.black then s
  else
    let b1 := newBoardAfter s.board row col Disc.black
    let blackCount := countDiscs b1 Disc.black
    let whiteCount := countDiscs b1 Disc.white
    if (findLegalMoves b1 Disc.white).length > 0 then
      { board := b1, currentPlayer := Disc.white, gameOver := false
        blackCount := blackCount, whiteCount := whiteCount, skipTurn := false }
    else if (findLegalMoves b1 Disc.black).length > 0 then
      { board := b1, currentPlayer := Disc.black, gameOver := false
        blackCount := blackCount, whiteCount := whiteCount, skipTurn := true }
    else
      { board := b1, currentPlayer := Disc.white, gameOver := true
        blackCount := blackCount, whiteCount := whiteCount, skipTurn := false }

/-- The positional value matrix of the Othello `evaluateBoard`. -/
def positionValue : List (List Int) :=
  [[120, -20, 20, 20, -20, 120],
   [-20, -40, -5, -5, -40, -20],
   [20, -5, 15, 15, -5, 20],
   [20, -5, 15, 15, -5, 20],
   [-20, -40, -5, -5, -40, -20],
   [120, -20, 20, 20, -20, 120]]

/-- `positionValue[r][c]` (only read at in-board coordinates). -/
def posVal (r c : Int) : Int :=
  (positionValue.getD r.toNat []).getD c.toNat 0

/-- The Othello static evaluator `evaluateBoard(board, player)`:
positional sum, then a phase-dependent term (disc difference times 10 in
the endgame; mobility times 5 plus disc difference times 2 otherwise).
The source also tallies `emptyCells` but never uses it. -/
def evaluateBoard (b : OBoard) (player : Disc) : Int :=
  let opp := opponentOf player
  let stats :=
    coords6.foldl
      (fun acc r =>
        coords6.foldl
          (fun (acc2 : Int × Int × Nat) c =>
            if b r c = player then
              (acc2.1 + posVal r c, acc2.2.1 + 1, acc2.2.2 + 1)
            else if b r c = opp then
              (acc2.1 - posVal r c, acc2.2.1 - 1, acc2.2.2 + 1)
            else acc2)
          acc)
      ((0 : Int), (0 : Int), (0 : Nat))
  if 30 ≤ stats.2.2 then stats.1 + stats.2.1 * 10
  else
    stats.1 +
      (((findLegalMoves b player).length : Int) -
          ((findLegalMoves b opp).length : Int)) * 5 +
      stats.2.1 * 2

/-- `score > bestScore` where `bestScore` starts at `-Infinity`
(embedded as `none`). -/
def scoreBetter (score : Int) (best : Option Int) : Bool :=
  match best with
  | none => true
  | some b => b < score

/-- One step of the `makeAIMove` loops that place a candidate, evaluate
the result statically and keep the running maximum (the corner loop and
the defensive fallback loop). -/
def evalStep (b : OBoard) (acc : Option Int × (Int × Int)) (p : Int × Int) :
    Option Int × (Int × Int) :=
  let score := evaluateBoard (newBoardAfter b p.1 p.2 Disc.white) Disc.white
  if scoreBetter score acc.1 then (some score, p) else acc

/-- One step of the depth-2 lookahead loop of `makeAIMove`: place the
candidate; if Black then has no reply, score `evaluate + 30`; otherwise
score the minimum of `evaluate` over Black's replies
(`playerBestScore`, which starts at `Infinity`, embedded as `none`). -/
def lookaheadStep (b : OBoard) (acc : Option Int × (Int × Int))
    (p : Int × Int) : Option Int × (Int × Int) :=
  let tb2 := newBoardAfter b p.1 p.2 Disc.white
  let playerMoves := findLegalMoves tb2 Disc.black
  if playerMoves = [] then
    let score := evaluateBoard tb2 Disc.white + 30
    if scoreBetter score acc.1 then (some score, p) else acc
  else
    let pbs :=
      playerMoves.foldl
        (fun (m : Option Int) q =>
          let ps := evaluateBoard (newBoardAfter tb2 q.1 q.2 Disc.black)
            Disc.white
          match m with
          | none => some ps
          | some v => some (min v ps))
        none
    match pbs with
    | some v => if scoreBetter v acc.1 then (some v, p) else acc
    | none => acc

/-- The four corner cells of the 6x6 board. -/
def cornerCells : List (Int × Int) := [(0, 0), (0, 5), (5, 0), (5, 5)]

/-- The move-selection part of `makeAIMove`: corner preference, then the
depth-2 lookahead, then the static-evaluation fallback, then a uniform
random legal move (`c` chooses its index).  Returns `(-1, -1)` when no
move was selected (only possible when there is no legal move at all). -/
def selectWhiteMove (b : OBoard) (c : Nat) : Int × Int :=
  let legalMoves := findLegalMoves b Disc.white
  let cornerMoves := legalMoves.filter fun p => decide (p ∈ cornerCells)
  if cornerMoves ≠ [] then
    (cornerMoves.foldl (evalStep b) (none, (-1, -1))).2
  else
    let acc1 := legalMoves.foldl (lookaheadStep b) (none, (-1, -1))
    let acc2 :=
      if acc1.2.1 = -1 then legalMoves.foldl (evalStep b) acc1 else acc1
    if acc2.2.1 = -1 then legalMoves.getD (c % legalMoves.length) (-1, -1)
    else acc2.2

/-- The application part of `makeAIMove` (run once `bestMove` is fixed):
place the white disc, flip, recount, and resolve turn passing / skipping
/ game over symmetrically to `placeDisc`. -/
def makeAIMoveApply (s : OthelloState) (row col : Int) : OthelloState :=
  let b1 := newBoardAfter s.board row col Disc.white
  let blackCount := countDiscs b1 Disc.black
  let whiteCount := countDiscs b1 Disc.white
  if (findLegalMoves b1 Disc.black).length > 0 then
    { board := b1, currentPlayer := Disc.black, gameOver := false
      blackCount := blackCount, whiteCount := whiteCount, skipTurn := false }
  else if (findLegalMoves b1 Disc.white).length > 0 then
    { board := b1, currentPlayer := Disc.white, gameOver := false
      blackCount := blackCount, whiteCount := whiteCount, skipTurn := true }
  else
    { board := b1, currentPlayer := Disc.black, gameOver := true
      blackCount := blackCount, whiteCount := whiteCount, skipTurn := false }

/-- `makeAIMove(currentBoard)` with `currentBoard = othello.board`:
no-op when the game is over; pass / game-over handling when White has no
legal move; otherwise select a move and apply it. -/
def makeAIMove (s : OthelloState) (c : Nat) : OthelloState :=
  if s.gameOver then s
  else
    let legalMoves := findLegalMoves s.board Disc.white
    if legalMoves = [] then
      if (findLegalMoves s.board Disc.black).length > 0 then
        { s with currentPlayer := Disc.black, skipTurn := true }
      else { s with gameOver := true }
    else
      let bestMove := selectWhiteMove s.board c
      if ¬ bestMove.1 = -1 ∧ ¬ bestMove.2 = -1 then
        makeAIMoveApply s bestMove.1 bestMove.2
      else s

/-! ### Othello theorems -/

/-- C3: a cell returned by `findLegalMoves` is an empty cell, and some
direction from it has a nonempty bracketed opponent run. -/
theorem mem_findLegalMoves (b : OBoard) (player : Disc) (cell : Int × Int)
    (h : cell ∈ findLegalMoves b player) :
    b cell.1 cell.2 = Disc.empty ∧
      ∃ d ∈ directions, dirFlips b player cell.1 cell.2 d ≠ [] := by
  unfold findLegalMoves at h
  rw [List.mem_flatMap] at h
  obtain ⟨row, _, h⟩ := h
  rw [List.mem_flatMap] at h
  obtain ⟨col, _, h⟩ := h
  split at h
  · next hc =>
    simp only [List.mem_singleton] at h
    subst h
    refine ⟨hc.1, ?_⟩
    have := hc.2
    rw [List.any_eq_true] at this
    obtain ⟨d, hd, hdec⟩ := this
    exact ⟨d, hd, of_decide_eq_true hdec⟩
  · simp at h

/-- C3: for every 6x6 board and every side, every cell returned by
`findLegalMoves` is an empty cell, and the flip set `getFlippedDiscs`
computes for that cell has length at least 1. -/
theorem findLegalMoves_sound (b : OBoard) (player : Disc) (cell : Int × Int)
    (h : cell ∈ findLegalMoves b player) :
    b cell.1 cell.2 = Disc.empty ∧
      1 ≤ (getFlippedDiscs b cell.1 cell.2 player).length := by
  obtain ⟨hemp, d, hd, hne⟩ := mem_findLegalMoves b player cell h
  refine ⟨hemp, ?_⟩
  obtain ⟨x, hx⟩ := List.exists_mem_of_ne_nil _ hne
  have hmem : x ∈ getFlippedDiscs b cell.1 cell.2 player := by
    unfold getFlippedDiscs
    rw [List.mem_flatMap]
    exact ⟨d, hd, hx⟩
  exact Nat.succ_le_of_lt (List.length_pos_of_mem hmem)

/-- C3 witness: the fresh board's Black move `(1, 2)` is returned by
`findLegalMoves`, lands on an empty cell and flips at least one disc. -/
theorem findLegalMoves_sound_witness :
    initialBoard 1 2 = Disc.empty ∧
      1 ≤ (getFlippedDiscs initialBoard 1 2 Disc.black).length :=
  findLegalMoves_sound initialBoard Disc.black (1, 2) (by decide)

/-- C2 (counterexample): on the fresh board, Black's move at `(1, 3)` is
not legal — `(1, 3)` is in fact one of White's legal opening moves. -/
theorem scenarioA_one_three_not_legal :
    (1, 3) ∉ findLegalMoves initialBoard Disc.black ∧
      (1, 3) ∈ findLegalMoves initialBoard Disc.white := by
  decide

/-- C2 (amended): on the fresh board (`mid = 2`, white at `(2,2)`/`(3,3)`,
black at `(2,3)`/`(3,2)`), Black's move at `(1, 2)` is legal, its flip set
is exactly the white disc at `(2, 2)`, and applying it raises
`blackCount` by one plus the number of flipped discs while lowering
`whiteCount` by the number of flipped discs. -/
theorem scenarioA_amended :
    (1, 2) ∈ findLegalMoves initialBoard Disc.black ∧
    getFlippedDiscs (setCellO initialBoard 1 2 Disc.black) 1 2 Disc.black
      = [(2, 2)] ∧
    (placeDisc initOthelloBoard 1 2).blackCount
      = initOthelloBoard.blackCount + 1 +
        (getFlippedDiscs (setCellO initialBoard 1 2 Disc.black) 1 2
          Disc.black).length ∧
    initOthelloBoard.whiteCount
      = (placeDisc initOthelloBoard 1 2).whiteCount +
        (getFlippedDiscs (setCellO initialBoard 1 2 Disc.black) 1 2
          Disc.black).length := by
  decide

/-- C8: `placeDisc` is a complete no-op (the whole state, board and all
counters included, is returned unchanged) when the game is over, the
target cell is occupied, or the target is not a legal Black move. -/
theorem placeDisc_noop (s : OthelloState) (row col : Int)
    (h : s.gameOver = true ∨ ¬ s.board row col = Disc.empty ∨
      (row, col) ∉ findLegalMoves s.board Disc.black) :
    placeDisc s row col = s := by
  unfold placeDisc
  rcases h with h | h | h
  · rw [if_pos (Or.inl (by simp [h]))]
  · rw [if_pos (Or.inr h)]
  · by_cases h1 : (s.gameOver = true) ∨ ¬ s.board row col = Disc.empty
    · rw [if_pos (by simpa using h1)]
    · rw [if_neg (by simpa using h1), if_pos h]

/-- C8 witness: once the game is over, `placeDisc` changes nothing. -/
theorem placeDisc_noop_witness :
    placeDisc { initOthelloBoard with gameOver := true } 1 2
      = { initOthelloBoard with gameOver := true } :=
  placeDisc_noop _ 1 2 (Or.inl rfl)

/-- How the state after a successful move must relate to the post-move
board `b1` when the mover's opponent is `opp`: turn passes to `opp` when
it can move; otherwise the mover `me` keeps the turn with
`skipTurn = true` when it can move; otherwise the game is over. -/
def nextTurnSpec (s' : OthelloState) (b1 : OBoard) (opp me : Disc) : Prop :=
  s'.board = b1 ∧
  (findLegalMoves b1 opp ≠ [] →
    s'.currentPlayer = opp ∧ s'.skipTurn = false ∧ s'.gameOver = false) ∧
  (findLegalMoves b1 opp = [] → findLegalMoves b1 me ≠ [] →
    s'.currentPlayer = me ∧ s'.skipTurn = true ∧ s'.gameOver = false) ∧
  (findLegalMoves b1 opp = [] → findLegalMoves b1 me = [] →
    s'.gameOver = true)

/-- C4: after every successful move — the human Black path `placeDisc`
and the AI White path (the application part of `makeAIMove`) — the next
state is resolved by the pass / skip / game-over trichotomy against the
post-move board. -/
theorem othello_turn_resolution :
    (∀ (s : OthelloState) (row col : Int),
      s.gameOver = false → s.board row col = Disc.empty →
      (row, col) ∈ findLegalMoves s.board Disc.black →
      nextTurnSpec (placeDisc s row col)
        (newBoardAfter s.board row col Disc.black) Disc.white Disc.black) ∧
    (∀ (s : OthelloState) (row col : Int),
      nextTurnSpec (makeAIMoveApply s row col)
        (newBoardAfter s.board row col Disc.white) Disc.black Disc.white) := by
  constructor
  · intro s row col hg he hl
    unfold placeDisc
    rw [if_neg (by simp [hg, he]), if_neg (by simpa using hl)]
    dsimp only
    split
    · next hw =>
      exact ⟨rfl, fun _ => ⟨rfl, rfl, rfl⟩,
        fun h2 _ => absurd hw (by simp [h2]),
        fun h2 _ => absurd hw (by simp [h2])⟩
    · next hw =>
      have hwe : findLegalMoves (newBoardAfter s.board row col Disc.black)
          Disc.white = [] := 
        List.length_eq_zero.mp (Nat.eq_zero_of_not_pos hw)
      split
      · next hb =>
        exact ⟨rfl, fun h1 => absurd hwe h1, fun _ _ => ⟨rfl, rfl, rfl⟩,
          fun _ h2 => absurd hb (by simp [h2])⟩
      · next hb =>
        have hbe : findLegalMoves (newBoardAfter s.board row col Disc.black)
            Disc.black = [] := 
          List.length_eq_zero.mp (Nat.eq_zero_of_not_pos hb)
        exact ⟨rfl, fun h1 => absurd hwe h1, fun _ h1 => absurd hbe h1,
          fun _ _ => rfl⟩
  · intro s row col
    unfold makeAIMoveApply
    dsimp only
    split
    · next hb =>
      exact ⟨rfl, fun _ => ⟨rfl, rfl, rfl⟩,
        fun h2 _ => absurd hb (by simp [h2]),
        fun h2 _ => absurd hb (by simp [h2])⟩
    · next hb =>
      have hbe : findLegalMoves (newBoardAfter s.board row col Disc.white)
          Disc.black = [] := 
        List.length_eq_zero.mp (Nat.eq_zero_of_not_pos hb)
      split
      · next hw =>
        exact ⟨rfl, fun h1 => absurd hbe h1, fun _ _ => ⟨rfl, rfl, rfl⟩,
          fun _ h2 => absurd hw (by simp [h2])⟩
      · next hw =>
        have hwe : findLegalMoves (newBoardAfter s.board row col Disc.white)
            Disc.white = [] := 
          List.length_eq_zero.mp (Nat.eq_zero_of_not_pos hw)
        exact ⟨rfl, fun h1 => absurd hbe h1, fun _ h1 => absurd hwe h1,
          fun _ _ => rfl⟩

/-- C4 witness: Black's opening move `(1, 2)` passes the turn to White
with `skipTurn = false` and the game still running. -/
theorem othello_turn_resolution_witness :
    (placeDisc initOthelloBoard 1 2).currentPlayer = Disc.white ∧
      (placeDisc initOthelloBoard 1 2).skipTurn = false ∧
      (placeDisc initOthelloBoard 1 2).gameOver = false :=
  (othello_turn_resolution.1 initOthelloBoard 1 2 rfl (by decide)
    (by decide)).2.1 (by decide)

/-- The best-of loop of `makeAIMove` never leaves a set that contains its
accumulator's move and every candidate. -/
theorem foldl_evalStep_mem (b : OBoard) (S : List (Int × Int)) :
    ∀ (l : List (Int × Int)) (acc : Option Int × (Int × Int)),
      acc.2 ∈ S → (∀ x ∈ l, x ∈ S) → (l.foldl (evalStep b) acc).2 ∈ S := by
  intro l
  induction l with
  | nil => intro acc ha _; simpa using ha
  | cons x xs ih =>
    intro acc ha hl
    rw [List.foldl_cons]
    apply ih
    · unfold evalStep
      dsimp only
      split
      · exact hl x (by simp)
      · exact ha
    · intro y hy; exact hl y (by simp [hy])

/-- Starting from `bestScore = -Infinity`, the best-of loop over a
nonempty candidate list always selects one of the candidates. -/
theorem foldl_evalStep_none (b : OBoard) (x : Int × Int)
    (xs : List (Int × Int)) (m : Int × Int) :
    ((x :: xs).foldl (evalStep b) (none, m)).2 ∈ x :: xs := by
  rw [List.foldl_cons]
  have hstep : evalStep b (none, m) x =
      (some (evaluateBoard (newBoardAfter b x.1 x.2 Disc.white) Disc.white),
        x) := rfl
  rw [hstep]
  exact foldl_evalStep_mem b (x :: xs) xs _ (by simp)
    (fun y hy => by simp [hy])

/-- C5: whenever White has a legal corner move, `makeAIMove` selects a
corner (a member of `cornerCells` that is also legal) and plays it,
regardless of the evaluation of non-corner alternatives. -/
theorem makeAIMove_corner_preference (s : OthelloState) (c : Nat)
    (hg : s.gameOver = false)
    (h : ∃ p ∈ findLegalMoves s.board Disc.white, p ∈ cornerCells) :
    selectWhiteMove s.board c ∈ cornerCells ∧
    selectWhiteMove s.board c ∈ findLegalMoves s.board Disc.white ∧
    makeAIMove s c =
      makeAIMoveApply s (selectWhiteMove s.board c).1
        (selectWhiteMove s.board c).2 := by
  obtain ⟨p, hp, hpc⟩ := h
  have hcf : p ∈ (findLegalMoves s.board Disc.white).filter
      (fun q => decide (q ∈ cornerCells)) :=
    List.mem_filter.mpr ⟨hp, by simpa using hpc⟩
  have hne : (findLegalMoves s.board Disc.white).filter
      (fun q => decide (q ∈ cornerCells)) ≠ [] :=
    List.ne_nil_of_mem hcf
  have hsel : selectWhiteMove s.board c ∈
      (findLegalMoves s.board Disc.white).filter
        (fun q => decide (q ∈ cornerCells)) := by
    unfold selectWhiteMove
    dsimp only
    rw [if_pos hne]
    obtain ⟨y, ys, hys⟩ := List.exists_cons_of_ne_nil hne
    rw [hys]
    exact foldl_evalStep_none s.board y ys (-1, -1)
  have hmem := List.mem_filter.mp hsel
  have hcorner : selectWhiteMove s.board c ∈ cornerCells := by
    simpa using hmem.2
  have hlegal := hmem.1
  refine ⟨hcorner, hlegal, ?_⟩
  have hlne : findLegalMoves s.board Disc.white ≠ [] :=
    List.ne_nil_of_mem hp
  have hcomp : ¬ (selectWhiteMove s.board c).1 = -1 ∧
      ¬ (selectWhiteMove s.board c).2 = -1 := by
    have := hcorner
    simp only [cornerCells, List.mem_cons, List.not_mem_nil, or_false] at this
    rcases this with h' | h' | h' | h' <;> rw [h'] <;> exact ⟨by decide, by decide⟩
  unfold makeAIMove
  rw [if_neg (by simp [hg])]
  dsimp only
  rw [if_neg hlne, if_pos hcomp]

/-- A small position in which White can take the corner `(0, 0)`:
a black disc at `(1, 0)` bracketed by white at `(2, 0)`. -/
def cornerTestBoard : OBoard := fun r c =>
  if r = 1 ∧ c = 0 then Disc.black
  else if r = 2 ∧ c = 0 then Disc.white
  else Disc.empty

/-- The state holding `cornerTestBoard` with White to move. -/
def cornerTestState : OthelloState :=
  { board := cornerTestBoard
    currentPlayer := Disc.white
    gameOver := false
    blackCount := 1
    whiteCount := 1
    skipTurn := false }

/-- C5 witness: with the corner `(0, 0)` available, the AI selects a
legal corner move and plays it. -/
theorem makeAIMove_corner_preference_witness :
    selectWhiteMove cornerTestState.board 0 ∈ cornerCells ∧
    selectWhiteMove cornerTestState.board 0 ∈
      findLegalMoves cornerTestState.board Disc.white ∧
    makeAIMove cornerTestState 0 =
      makeAIMoveApply cornerTestState (selectWhiteMove cornerTestState.board 0).1
        (selectWhiteMove cornerTestState.board 0).2 :=
  makeAIMove_corner_preference cornerTestState 0 rfl
    ⟨(0, 0), by decide, by decide⟩

end Othello

namespace TicTacToe

/-- Tic-tac-toe mark: the source stores `'○'` (the human player) and
`'×'` (the AI) in `board: Array<string | null>`; an empty cell is
`null`, embedded as `none`. -/
inductive Mark where
  | circle
  | cross
deriving DecidableEq, Repr

/-- The 9-cell board. -/
abbrev TBoard : Type := List (Option Mark)

/-- `TicTacToeState` from the source.  `winner` only ever receives
`null`, a value read back from a board cell, or the literal `'×'`, so it
is embedded as `Option Mark`. -/
structure TicTacToeState where
  board : TBoard
  isPlayerTurn : Bool
  gameOver : Bool
  winner : Option Mark
  playerMarks : Nat
  aiMarks : Nat

/-- The 8 win lines of `checkWinner` (3 rows, 3 columns, 2 diagonals),
in source order. -/
def lines : List (Nat × Nat × Nat) :=
  [(0, 1, 2), (3, 4, 5), (6, 7, 8), (0, 3, 6), (1, 4, 7), (2, 5, 8),
   (0, 4, 8), (2, 4, 6)]

/-- The scanning loop of `checkWinner`: return the mark of the first
line whose three cells hold the same non-null mark
(`board[a] && board[a] === board[b] && board[a] === board[c]`). -/
def checkLines : List (Nat × Nat × Nat) → TBoard → Option Mark
  | [], _ => none
  | l :: rest, board =>
    match board.getD l.1 none with
    | some m =>
      if board.getD l.2.1 none = some m ∧ board.getD l.2.2 none = some m then
        some m
      else checkLines rest board
    | none => checkLines rest board

/-- `checkWinner(board)`. -/
def checkWinner (board : TBoard) : Option Mark :=
  checkLines lines board

/-- The AI's possible opening cells in `resetGame` (center or corner). -/
def firstMoves : List Nat := [0, 2, 4, 6, 8]

/-- `resetGame()`: empty board with one AI mark pre-placed at a cell
chosen uniformly from `firstMoves` (the random draw is embedded as the
choice parameter `k`, reduced mod 5). -/
def resetGame (k : Nat) : TicTacToeState :=
  { board := (List.replicate 9 (none : Option Mark)).set
      (firstMoves.getD (k % 5) 0) (some Mark.cross)
    isPlayerTurn := true
    gameOver := false
    winner := none
    playerMarks := 0
    aiMarks := 1 }

/-- `handleCellClick(index)`: the human move.  No-op when the cell is
occupied, it is not the player's turn, or the game is over; no-op when
the player has 3 marks but no `'○'` is on the board; otherwise evict the
`'○'` at the lowest board index when the player already has 3 marks
(`findIndex`), place the new `'○'`, check the winner, and cap the
`playerMarks` counter at 3. -/
def handleCellClick (s : TicTacToeState) (index : Nat) : TicTacToeState :=
  if ¬ s.board.getD index none = none ∨ s.isPlayerTurn = false ∨ s.gameOver
    then s
  else if 3 ≤ s.playerMarks ∧ ¬ some Mark.circle ∈ s.board then s
  else if s.playerMarks < 3 ∨ some Mark.circle ∈ s.board then
    let b1 :=
      if 3 ≤ s.playerMarks then
        match s.board.findIdx? (· = some Mark.circle) with
        | some f => s.board.set f none
        | none => s.board
      else s.board
    let nb := b1.set index (some Mark.circle)
    match checkWinner nb with
    | some w =>
      { s with
        board := nb
        gameOver := true
        winner := some w
        playerMarks :=
          if s.playerMarks < 3 then s.playerMarks + 1 else s.playerMarks }
    | none =>
      { s with
        board := nb
        isPlayerTurn := false
        playerMarks :=
          if s.playerMarks < 3 then s.playerMarks + 1 else s.playerMarks }
  else s

/-- JS number scores of the tic-tac-toe search: every evaluated score is
an integer, but `bestScore`, `alpha` and `beta` start at `±Infinity`. -/
inductive Score where
  | negInf
  | val (n : Int)
  | posInf
deriving DecidableEq, Repr

/-- `a < b` on scores. -/
def Score.lt : Score → Score → Bool
  | Score.negInf, Score.negInf => false
  | Score.negInf, _ => true
  | Score.val _, Score.negInf => false
  | Score.val a, Score.val b => a < b
  | Score.val _, Score.posInf => true
  | Score.posInf, _ => false

/-- `a <= b` on scores. -/
def Score.le (a b : Score) : Bool := ¬ Score.lt b a

/-- `Math.max` on scores. -/
def Score.max (a b : Score) : Score := if Score.lt a b then b else a

/-- `Math.min` on scores. -/
def Score.min (a b : Score) : Score := if Score.lt b a then b else a

/-- The corner cells checked by the tic-tac-toe evaluator and fallbacks. -/
def corners : List Nat := [0, 2, 6, 8]

/-- The tic-tac-toe `evaluateBoard(board, depth)`: terminal scores
`100 - depth` (AI win) and `depth - 100` (player win); otherwise center
(±3) and corner (±2) occupancy plus per-line bonuses (+5 for two AI
marks and one empty, +1 for one AI mark and two empties, −5 for two
player marks and one empty). -/
def evaluateBoard (board : TBoard) (depth : Nat) : Int :=
  match checkWinner board with
  | some Mark.cross => 100 - (depth : Int)
  | some Mark.circle => (depth : Int) - 100
  | none =>
    let score : Int :=
      (if board.getD 4 none = some Mark.cross then 3 else 0) +
        (if board.getD 4 none = some Mark.circle then -3 else 0)
    let score := corners.foldl
      (fun sc corner =>
        sc + (if board.getD corner none = some Mark.cross then 2 else 0) +
          (if board.getD corner none = some Mark.circle then -2 else 0))
      score
    lines.foldl
      (fun sc l =>
        let cells := [l.1, l.2.1, l.2.2]
        let aiCount := cells.countP
          (fun pos => board.getD pos none = some Mark.cross)
        let playerCount := cells.countP
          (fun pos => board.getD pos none = some Mark.circle)
        let emptyCount := cells.countP (fun pos => board.getD pos none = none)
        let sc := sc +
          (if aiCount = 2 ∧ emptyCount = 1 then 5
            else if aiCount = 1 ∧ emptyCount = 2 then 1 else 0)
        sc + (if playerCount = 2 ∧ emptyCount = 1 then -5 else 0))
      score

/-- The shape of the recursive call available to the loop bodies of
`minimax`: the depth-decremented `minimax` itself, with the board, the
maximizing flag, `alpha`, `beta` and both mark counts still free. -/
abbrev MinimaxRec : Type :=
  TBoard → Bool → Score → Score → Nat → Nat → Score × Int

/-- Body of the maximizing placement loop of `minimax` over cell `i`;
the accumulator is `(bestScore, bestMove, alpha, pruned)`, with `pruned`
emulating the `break` on `beta <= alpha`. -/
def maxPlaceStep (rec : MinimaxRec) (b : TBoard) (beta : Score)
    (aiMarks playerMarks : Nat) (acc : Score × Int × Score × Bool)
    (i : Nat) : Score × Int × Score × Bool :=
  if acc.2.2.2 then acc
  else if b.getD i none = none then
    if aiMarks < 3 then
      let r := rec (b.set i (some Mark.cross)) false acc.2.2.1 beta
        (aiMarks + 1) playerMarks
      let best : Score × Int :=
        if Score.lt acc.1 r.1 then (r.1, (i : Int)) else (acc.1, acc.2.1)
      let al := Score.max acc.2.2.1 best.1
      (best.1, best.2, al, Score.le beta al)
    else acc
  else acc

/-- Body of the maximizing relocation inner loop of `minimax` (mark
moved from `i` to `j`, `bestMove` encoded as `j * 10 + i`). -/
def maxMoveInnerStep (rec : MinimaxRec) (b : TBoard) (beta : Score)
    (aiMarks playerMarks i : Nat) (acc : Score × Int × Score × Bool)
    (j : Nat) : Score × Int × Score × Bool :=
  if acc.2.2.2 then acc
  else if b.getD j none = none then
    let r := rec ((b.set i none).set j (some Mark.cross)) false acc.2.2.1
      beta aiMarks playerMarks
    let best : Score × Int :=
      if Score.lt acc.1 r.1 then (r.1, ((j * 10 + i : Nat) : Int))
      else (acc.1, acc.2.1)
    let al := Score.max acc.2.2.1 best.1
    (best.1, best.2, al, Score.le beta al)
  else acc

/-- Body of the minimizing placement loop of `minimax` over cell `i`;
the accumulator is `(bestScore, bestMove, beta, pruned)`. -/
def minPlaceStep (rec : MinimaxRec) (b : TBoard) (alpha : Score)
    (aiMarks playerMarks : Nat) (acc : Score × Int × Score × Bool)
    (i : Nat) : Score × Int × Score × Bool :=
  if acc.2.2.2 then acc
  else if b.getD i none = none then
    if playerMarks < 3 then
      let r := rec (b.set i (some Mark.circle)) true alpha acc.2.2.1
        aiMarks (playerMarks + 1)
      let best : Score × Int :=
        if Score.lt r.1 acc.1 then (r.1, (i : Int)) else (acc.1, acc.2.1)
      let bt := Score.min acc.2.2.1 best.1
      (best.1, best.2, bt, Score.le bt alpha)
    else acc
  else acc

/-- Body of the minimizing relocation inner loop of `minimax` (the
source stores the plain target `j` as `bestMove` here). -/
def minMoveInnerStep (rec : MinimaxRec) (b : TBoard) (alpha : Score)
    (aiMarks playerMarks i : Nat) (acc : Score × Int × Score × Bool)
    (j : Nat) : Score × Int × Score × Bool :=
  if acc.2.2.2 then acc
  else if b.getD j none = none then
    let r := rec ((b.set i none).set j (some Mark.circle)) true alpha
      acc.2.2.1 aiMarks playerMarks
    let best : Score × Int :=
      if Score.lt r.1 acc.1 then (r.1, (j : Int)) else (acc.1, acc.2.1)
    let bt := Score.min acc.2.2.1 best.1
    (best.1, best.2, bt, Score.le bt alpha)
  else acc

/-- The alpha-beta `minimax(board, depth, isMaximizing, alpha, beta,
aiMarks, playerMarks)` of `findBestMove`: terminal at depth 0 or on a
decided board; otherwise a placement loop over the 9 cells followed —
once the mover holds 3 marks — by a relocation double loop; returns
`[bestScore, bestMove]`. -/
def minimax (b : TBoard) (depth : Nat) (isMax : Bool) (alpha beta : Score)
    (aiMarks playerMarks : Nat) : Score × Int :=
  match depth with
  | 0 => (Score.val (evaluateBoard b 0), -1)
  | d + 1 =>
    if ¬ checkWinner b = none then (Score.val (evaluateBoard b (d + 1)), -1)
    else
      let rec1 : MinimaxRec := fun nb isM al be am pm =>
        minimax nb d isM al be am pm
      if isMax then
        let ap := (List.range 9).foldl
          (maxPlaceStep rec1 b beta aiMarks playerMarks)
          (Score.negInf, -1, alpha, false)
        let am3 : Score × Int × Score :=
          if 3 ≤ aiMarks then
            (List.range 9).foldl
              (fun acc i =>
                if b.getD i none = some Mark.cross then
                  let inner := (List.range 9).foldl
                    (maxMoveInnerStep rec1 b beta aiMarks playerMarks i)
                    (acc.1, acc.2.1, acc.2.2, false)
                  (inner.1, inner.2.1, inner.2.2.1)
                else acc)
              (ap.1, ap.2.1, ap.2.2.1)
          else (ap.1, ap.2.1, ap.2.2.1)
        (am3.1, am3.2.1)
      else
        let mp := (List.range 9).foldl
          (minPlaceStep rec1 b alpha aiMarks playerMarks)
          (Score.posInf, -1, beta, false)
        let mm3 : Score × Int × Score :=
          if 3 ≤ playerMarks then
            (List.range 9).foldl
              (fun acc i =>
                if b.getD i none = some Mark.circle then
                  let inner := (List.range 9).foldl
                    (minMoveInnerStep rec1 b alpha aiMarks playerMarks i)
                    (acc.1, acc.2.1, acc.2.2, false)
                  (inner.1, inner.2.1, inner.2.2.1)
                else acc)
              (mp.1, mp.2.1, mp.2.2.1)
          else (mp.1, mp.2.1, mp.2.2.1)
        (mm3.1, mm3.2.1)

/-- `const maxDepth = 5` in `findBestMove`. -/
def maxDepth : Nat := 5

/-- `const useDepth = aiMarksCount < 3 ? maxDepth : 4`: the search depth
actually passed to `minimax` depends only on the AI's own mark count. -/
def useDepth (aiMarksCount : Nat) : Nat :=
  if aiMarksCount < 3 then maxDepth else 4

/-- `findBestMove(board, aiMarksCount)`: run `minimax` at `useDepth`,
decode a relocation-encoded move (which mutates the caller's board —
hence the returned board), then prefer an immediate winning placement,
then an immediate block of the player's win, and finally fall back to
center / random empty corner / random empty cell when the search
returned no move.  `c1`/`c2` embed the two random draws. -/
def findBestMove (board : TBoard) (aiMarksCount playerMarks c1 c2 : Nat) :
    Int × TBoard :=
  let r := minimax board (useDepth aiMarksCount) true Score.negInf
    Score.posInf aiMarksCount playerMarks
  let bestMove := r.2
  if 10 ≤ bestMove then
    (bestMove / 10, board.set (bestMove % 10).toNat none)
  else
    match (List.range 9).find? (fun i => board.getD i none = none ∧
        checkWinner (board.set i (some Mark.cross)) = some Mark.cross) with
    | some i => ((i : Int), board)
    | none =>
      match (List.range 9).find? (fun i => board.getD i none = none ∧
          checkWinner (board.set i (some Mark.circle)) = some Mark.circle) with
      | some i => ((i : Int), board)
      | none =>
        if bestMove = -1 then
          if board.getD 4 none = none then (4, board)
          else
            let emptyCorners := corners.filter
              (fun i => board.getD i none = none)
            if ¬ emptyCorners = [] then
              ((emptyCorners.getD (c1 % emptyCorners.length) 0 : Int), board)
            else
              let emptyIndexes := (List.range 9).filter
                (fun i => board.getD i none = none)
              if ¬ emptyIndexes = [] then
                ((emptyIndexes.getD (c2 % emptyIndexes.length) 0 : Int),
                  board)
              else (bestMove, board)
        else (bestMove, board)

/-- The winning-relocation search of `aiMove` when the AI holds 3 marks:
the first pair `(i, j)` — empty target `i` outer, own mark `j` inner —
whose relocation wins immediately. -/
def winReloc (b : TBoard) : Option (Nat × Nat) :=
  (List.range 9).findSome? fun i =>
    if b.getD i none = none then
      ((List.range 9).find? fun j => b.getD j none = some Mark.cross ∧
          checkWinner ((b.set j none).set i (some Mark.cross))
            = some Mark.cross).map
        (fun j => (i, j))
    else none

/-- The blocking search of `aiMove`: the first empty cell where the
player would complete a win. -/
def blockIndex (b : TBoard) : Option Nat :=
  (List.range 9).find? fun i => b.getD i none = none ∧
    checkWinner (b.set i (some Mark.circle)) = some Mark.circle

/-- The common tail of `aiMove`: winner check on the updated board, then
the state update with `aiMarks` incremented below its cap of 3. -/
def aiMoveFinish (s : TicTacToeState) (nb : TBoard) : TicTacToeState :=
  match checkWinner nb with
  | some w =>
    { s with
      board := nb
      isPlayerTurn := true
      gameOver := true
      winner := some w
      aiMarks := if s.aiMarks < 3 then s.aiMarks + 1 else s.aiMarks }
  | none =>
    { s with
      board := nb
      isPlayerTurn := true
      aiMarks := if s.aiMarks < 3 then s.aiMarks + 1 else s.aiMarks }

/-- `aiMove(board)` with `board = tictactoe.board`.  With 3 or more AI
marks: winning relocation, else blocking relocation of the `findIndex`
mark (skipped when no `'×'` exists), else relocate the `findIndex` mark
to the center or a random empty cell and run the winner check.  With
fewer than 3 marks: place at `findBestMove`'s choice (if any) and run
the winner check.  `cRel` embeds the relocation random draw. -/
def aiMove (s : TicTacToeState) (cRel c1 c2 : Nat) : TicTacToeState :=
  if 3 ≤ s.aiMarks then
    match winReloc s.board with
    | some ij =>
      { s with
        board := (s.board.set ij.2 none).set ij.1 (some Mark.cross)
        isPlayerTurn := true
        gameOver := true
        winner := some Mark.cross }
    | none =>
      match blockIndex s.board, s.board.findIdx? (· = some Mark.cross) with
      | some i, some f =>
        { s with
          board := (s.board.set f none).set i (some Mark.cross)
          isPlayerTurn := true }
      | _, _ =>
        let f? := s.board.findIdx? (· = some Mark.cross)
        let empties := (List.range 9).filter
          (fun i => s.board.getD i none = none)
        let b1 :=
          match f? with
          | some f => s.board.set f none
          | none => s.board
        let nb :=
          if 4 ∈ empties then b1.set 4 (some Mark.cross)
          else if ¬ empties = [] then
            b1.set (empties.getD (cRel % empties.length) 0) (some Mark.cross)
          else b1
        aiMoveFinish s nb
  else
    let r := findBestMove s.board s.aiMarks s.playerMarks c1 c2
    let nb := if ¬ r.1 = -1 then r.2.set r.1.toNat (some Mark.cross) else r.2
    aiMoveFinish s nb

/-! ### Counting and indexing helpers -/

theorem getD_set_ne_tb (l : TBoard) (i j : Nat) (h : ¬ i = j)
    (v : Option Mark) : (l.set i v).getD j none = l.getD j none := by
  rw [List.getD_eq_getElem?_getD, List.getD_eq_getElem?_getD,
    List.getElem?_set_ne h]

theorem count_set_fill (l : TBoard) (i : Nat) (hi : i < l.length)
    (hnone : l.getD i none = none) (m x : Mark) :
    (l.set i (some m)).count (some x)
      = l.count (some x) + (if m = x then 1 else 0) := by
  have hg : l[i] = (none : Option Mark) := by
    rw [← List.getD_eq_getElem l none hi]; exact hnone
  have hcs := List.count_set (some m) (some x) l i hi
  rw [hg] at hcs
  simp only [beq_iff_eq, Option.some.injEq] at hcs
  by_cases hmx : m = x <;> simp [hmx] at hcs ⊢ <;> omega

theorem count_set_clear (l : TBoard) (i : Nat) (hi : i < l.length) (m : Mark)
    (hm : l.getD i none = some m) (x : Mark) :
    l.count (some x)
      = (l.set i none).count (some x) + (if m = x then 1 else 0) := by
  have hg : l[i] = some m := by
    rw [← List.getD_eq_getElem l none hi]; exact hm
  have hcs := List.count_set (none : Option Mark) (some x) l i hi
  rw [hg] at hcs
  simp only [beq_iff_eq, Option.some.injEq] at hcs
  by_cases hmx : m = x
  · have hmem : some x ∈ l := by rw [← hmx, ← hg]; exact List.getElem_mem hi
    have hpos : 0 < l.count (some x) := List.count_pos_iff.mpr hmem
    simp [hmx] at hcs ⊢
    omega
  · simp [hmx] at hcs ⊢
    omega

theorem count_partition (l : TBoard) :
    l.count none + l.count (some Mark.circle) + l.count (some Mark.cross)
      = l.length := by
  induction l with
  | nil => rfl
  | cons x xs ih =>
    cases x with
    | none => simp [List.count_cons]; omega
    | some m => cases m <;> simp [List.count_cons] <;> omega

theorem exists_empty_cell (l : TBoard) (hlen : l.length = 9)
    (h : l.count (some Mark.circle) + l.count (some Mark.cross) < 9) :
    ∃ i, i < 9 ∧ l.getD i none = none := by
  have hp := count_partition l
  have hpos : 0 < l.count none := by omega
  have hmem : (none : Option Mark) ∈ l := List.count_pos_iff.mp hpos
  obtain ⟨n, hn, he⟩ := List.mem_iff_getElem.mp hmem
  refine ⟨n, by omega, ?_⟩
  rw [List.getD_eq_getElem l none hn, he]

theorem findIdx?_mark (l : TBoard) (m : Mark) (h : some m ∈ l) :
    ∃ f, l.findIdx? (· = some m) = some f ∧ f < l.length ∧
      l.getD f none = some m := by
  cases hf : l.findIdx? (· = some m) with
  | none =>
    rw [List.findIdx?_eq_none_iff] at hf
    have := hf _ h
    simp at this
  | some f =>
    have h2 := List.findIdx?_eq_some_iff_findIdx_eq.mp hf
    refine ⟨f, rfl, h2.1, ?_⟩
    have hw : List.findIdx (fun x => decide (x = some m)) l < l.length := by
      rw [h2.2]; exact h2.1
    have h3 := @List.findIdx_getElem _ (fun x => decide (x = some m)) l hw
    simp only [h2.2] at h3
    rw [List.getD_eq_getElem l none h2.1]
    simpa using h3

/-! ### checkWinner characterization (C6) -/

theorem checkLines_some (board : TBoard) :
    ∀ (ls : List (Nat × Nat × Nat)) (m : Mark),
      checkLines ls board = some m →
      ∃ l ∈ ls, board.getD l.1 none = some m ∧
        board.getD l.2.1 none = some m ∧ board.getD l.2.2 none = some m := by
  intro ls
  induction ls with
  | nil => intro m h; simp [checkLines] at h
  | cons hd rest ih =>
    intro m h
    rw [checkLines] at h
    cases hhd : board.getD hd.1 none with
    | none =>
      rw [hhd] at h
      have h' : checkLines rest board = some m := h
      obtain ⟨l, hl, hp⟩ := ih m h'
      exact ⟨l, by simp [hl], hp⟩
    | some m0 =>
      rw [hhd] at h
      have h' : (if board.getD hd.2.1 none = some m0 ∧
          board.getD hd.2.2 none = some m0 then some m0
          else checkLines rest board) = some m := h
      by_cases hc : board.getD hd.2.1 none = some m0 ∧
          board.getD hd.2.2 none = some m0
      · rw [if_pos hc] at h'
        injection h' with hm
        subst hm
        exact ⟨hd, by simp, hhd, hc.1, hc.2⟩
      · rw [if_neg hc] at h'
        obtain ⟨l, hl, hp⟩ := ih m h'
        exact ⟨l, by simp [hl], hp⟩

theorem checkLines_complete (board : TBoard) :
    ∀ (ls : List (Nat × Nat × Nat)) (l : Nat × Nat × Nat) (m : Mark),
      l ∈ ls → board.getD l.1 none = some m →
      board.getD l.2.1 none = some m → board.getD l.2.2 none = some m →
      ∃ m', checkLines ls board = some m' := by
  intro ls
  induction ls with
  | nil => intro l m h; simp at h
  | cons hd rest ih =>
    intro l m hmem h1 h2 h3
    cases hhd : board.getD hd.1 none with
    | some m0 =>
      by_cases hc : board.getD hd.2.1 none = some m0 ∧
          board.getD hd.2.2 none = some m0
      · exact ⟨m0, by rw [checkLines, hhd]; exact if_pos hc⟩
      · rcases List.mem_cons.mp hmem with rfl | hmem'
        · rw [h1] at hhd
          injection hhd with hm
          subst hm
          exact absurd ⟨h2, h3⟩ hc
        · obtain ⟨m', hm'⟩ := ih l m hmem' h1 h2 h3
          exact ⟨m', by rw [checkLines, hhd]; exact (if_neg hc).trans hm'⟩
    | none =>
      rcases List.mem_cons.mp hmem with rfl | hmem'
      · rw [h1] at hhd; cases hhd
      · obtain ⟨m', hm'⟩ := ih l m hmem' h1 h2 h3
        exact ⟨m', by rw [checkLines, hhd]; exact hm'⟩

/-- C6: for every 9-cell board, `checkWinner` returns a mark exactly
when one of the 8 lines holds three identical non-empty marks, and a
returned mark occupies such a line; a board with no such line yields
`none`. -/
theorem checkWinner_correct (board : TBoard) (hb : board.length = 9) :
    (∀ m, checkWinner board = some m →
      ∃ l ∈ lines, board.getD l.1 none = some m ∧
        board.getD l.2.1 none = some m ∧ board.getD l.2.2 none = some m) ∧
    ((∃ m, checkWinner board = some m) ↔
      ∃ l ∈ lines, ∃ m : Mark, board.getD l.1 none = some m ∧
        board.getD l.2.1 none = some m ∧ board.getD l.2.2 none = some m) := by
  refine ⟨fun m h => checkLines_some board lines m h, ?_, ?_⟩
  · rintro ⟨m, hm⟩
    obtain ⟨l, hl, hp⟩ := checkLines_some board lines m hm
    exact ⟨l, hl, m, hp⟩
  · rintro ⟨l, hl, m, h1, h2, h3⟩
    exact checkLines_complete board lines l m hl h1 h2 h3

/-- A board with the top row won by the player. -/
def wonBoard : TBoard :=
  [some Mark.circle, some Mark.circle, some Mark.circle,
   none, none, none, none, none, none]

/-- C6 witness: on `wonBoard`, `checkWinner` returns `'○'` and the top
row is indeed a monochromatic line. -/
theorem checkWinner_correct_witness :
    ∃ l ∈ lines, wonBoard.getD l.1 none = some Mark.circle ∧
      wonBoard.getD l.2.1 none = some Mark.circle ∧
      wonBoard.getD l.2.2 none = some Mark.circle :=
  (checkWinner_correct wonBoard rfl).1 Mark.circle rfl

/-! ### Search depth (C9) -/

/-- The depth-selection rule as the specification words it ("a fixed ply
depth (5 while under the cap, reduced to 4 once *either side* reaches
the 3-mark cap)"), written from the spec for comparison with the
source's `useDepth`. -/
def useDepthClaimed (aiMarksCount playerMarks : Nat) : Nat :=
  if 3 ≤ aiMarksCount ∨ 3 ≤ playerMarks then 4 else 5

/-- C9 (counterexample): with the AI under the cap (2 marks) but the
player at the cap (3 marks), the source searches at depth 5, not the
depth 4 the claim requires. -/
theorem useDepth_claim_false : useDepth 2 ≠ useDepthClaimed 2 3 := by
  decide

/-- C9 (amended): the search depth is 5 exactly while the AI's own mark
count is under the 3-mark cap and 4 otherwise; the player's count never
enters the rule.  (Moreover `aiMove` only invokes `findBestMove` while
the AI is under the cap, so the reachable searches all run at depth 5.) -/
theorem useDepth_spec (aiMarksCount : Nat) :
    (aiMarksCount < 3 → useDepth aiMarksCount = 5) ∧
    (3 ≤ aiMarksCount → useDepth aiMarksCount = 4) := by
  constructor <;> intro h <;> simp [useDepth, maxDepth, h] <;> omega

/-- C9 witness: concrete depths at AI mark counts 2 and 3. -/
theorem useDepth_spec_witness : useDepth 2 = 5 ∧ useDepth 3 = 4 :=
  ⟨(useDepth_spec 2).1 (by decide), (useDepth_spec 3).2 (by decide)⟩

/-! ### Mark eviction (C1) -/

/-- A board with the player's three marks at indices 1, 3 and 5. -/
def fifoBoard : TBoard :=
  [none, some Mark.circle, none, some Mark.circle, none,
   some Mark.circle, none, none, none]

/-- `fifoBoard` with the player at the 3-mark cap and to move. -/
def fifoState : TicTacToeState :=
  { board := fifoBoard
    isPlayerTurn := true
    gameOver := false
    winner := none
    playerMarks := 3
    aiMarks := 0 }

/-- C1 (counterexample): suppose the player placed the marks of
`fifoBoard` in the order 5, 3, 1, so the oldest surviving mark sits at
index 5.  The 4th placement (at 7) removes the mark at index 1 — the
lowest board index, here the *newest* mark — and keeps the oldest mark
at index 5, so the eviction is not placement-order FIFO.  The first
conjunct records that the board is consistent with that placement
history. -/
theorem eviction_not_fifo :
    (∀ i ∈ [5, 3, 1], fifoState.board.getD i none = some Mark.circle) ∧
    (handleCellClick fifoState 7).board.getD 5 none = some Mark.circle ∧
    (handleCellClick fifoState 7).board.getD 1 none = none := by
  decide

/-- The player-side half of the amended eviction claim: with the player
at the cap, `handleCellClick` clears exactly the `findIndex` (lowest
board index) `'○'` and keeps the live count and the counter at 3. -/
theorem handleCellClick_eviction (s : TicTacToeState) (index : Nat)
    (hidx : index < 9) (hlen : s.board.length = 9)
    (hpm : s.playerMarks = 3)
    (hcount : s.board.count (some Mark.circle) = 3)
    (hempty : s.board.getD index none = none)
    (hturn : s.isPlayerTurn = true) (hgo : s.gameOver = false) :
    ∃ f, s.board.findIdx? (· = some Mark.circle) = some f ∧
      (handleCellClick s index).board
        = (s.board.set f none).set index (some Mark.circle) ∧
      (handleCellClick s index).board.count (some Mark.circle) = 3 ∧
      (handleCellClick s index).playerMarks = 3 := by
  have hmem : some Mark.circle ∈ s.board := by
    apply List.count_pos_iff.mp
    omega
  obtain ⟨f, hf, hflt, hfval⟩ := findIdx?_mark s.board Mark.circle hmem
  have hfi : ¬ f = index := by
    intro he
    rw [he, hempty] at hfval
    cases hfval
  have hlen1 : (s.board.set f none).length = 9 := by
    rw [List.length_set, hlen]
  have hc1 : s.board.count (some Mark.circle)
      = (s.board.set f none).count (some Mark.circle) + 1 := by
    have := count_set_clear s.board f hflt Mark.circle hfval Mark.circle
    simpa using this
  have hidx1 : (s.board.set f none).getD index none = none := by
    rw [getD_set_ne_tb _ f index hfi]
    exact hempty
  have hc2 : ((s.board.set f none).set index
        (some Mark.circle)).count (some Mark.circle)
      = (s.board.set f none).count (some Mark.circle) + 1 := by
    have := count_set_fill (s.board.set f none) index
      (by rw [hlen1]; exact hidx) hidx1 Mark.circle Mark.circle
    simpa using this
  refine ⟨f, hf, ?_⟩
  unfold handleCellClick
  rw [if_neg (by
      intro hcontra
      rcases hcontra with h | h | h
      · exact h hempty
      · rw [hturn] at h; cases h
      · rw [hgo] at h; cases h),
    if_neg (by simp [hmem]), if_pos (Or.inr hmem), hpm]
  dsimp only
  rw [if_pos (le_refl 3), hf]
  split
  · exact ⟨rfl, by rw [hc2]; omega, by norm_num⟩
  · exact ⟨rfl, by rw [hc2]; omega, by norm_num⟩

/-! ### Shape of the moves produced by the search (used for the
reachable-state invariant) -/

/-- Moves the maximizing search can hand back to `aiMove` while the AI
is under the mark cap: either no move (`-1`) or an empty cell index
below 9. -/
def PlacementShape (b : TBoard) (m : Int) : Prop :=
  m = -1 ∨ ∃ i : Nat, i < 9 ∧ m = (i : Int) ∧ b.getD i none = none

theorem foldl_maxPlaceStep_shape (rec : MinimaxRec) (b : TBoard)
    (beta : Score) (aiMarks playerMarks : Nat) :
    ∀ (l : List Nat) (acc : Score × Int × Score × Bool),
      (∀ i ∈ l, i < 9) → PlacementShape b acc.2.1 →
      PlacementShape b
        ((l.foldl (maxPlaceStep rec b beta aiMarks playerMarks) acc)).2.1 := by
  intro l
  induction l with
  | nil => intro acc _ h; simpa using h
  | cons x xs ih =>
    intro acc hl h
    rw [List.foldl_cons]
    apply ih _ (fun i hi => hl i (by simp [hi]))
    unfold maxPlaceStep
    dsimp only
    split
    · exact h
    · split
      · next hempty =>
        split
        · dsimp only
          split
          · exact Or.inr ⟨x, hl x (by simp), rfl, hempty⟩
          · exact h
        · exact h
      · exact h

theorem minimax_shape (b : TBoard) (d : Nat) (alpha beta : Score)
    (aiMarks playerMarks : Nat) (h : aiMarks < 3) :
    PlacementShape b (minimax b d true alpha beta aiMarks playerMarks).2 := by
  cases d with
  | zero => exact Or.inl rfl
  | succ d =>
    rw [minimax]
    split
    · exact Or.inl rfl
    · dsimp only
      rw [if_neg (by omega : ¬ 3 ≤ aiMarks)]
      exact foldl_maxPlaceStep_shape _ b beta aiMarks playerMarks _ _
        (fun i hi => List.mem_range.mp hi) (Or.inl rfl)

theorem getD_mem_of_ne_nil (l : List Nat) (c : Nat) (h : ¬ l = []) :
    l.getD (c % l.length) 0 ∈ l := by
  have hlen : 0 < l.length := List.length_pos.mpr h
  have hm : c % l.length < l.length := Nat.mod_lt _ hlen
  rw [List.getD_eq_getElem l 0 hm]
  exact List.getElem_mem hm

theorem findBestMove_shape (b : TBoard) (ai pm c1 c2 : Nat) (hai : ai < 3) :
    (findBestMove b ai pm c1 c2).2 = b ∧
    PlacementShape b (findBestMove b ai pm c1 c2).1 ∧
    ((∃ i, i < 9 ∧ b.getD i none = none) →
      ¬ (findBestMove b ai pm c1 c2).1 = -1) := by
  have hshape := minimax_shape b (useDepth ai) Score.negInf Score.posInf
    ai pm hai
  have hlt10 : ¬ (10 : Int) ≤
      (minimax b (useDepth ai) true Score.negInf Score.posInf ai pm).2 := by
    rcases hshape with h | ⟨i, hi, he, _⟩
    · rw [h]; decide
    · rw [he]
      have : (i : Int) < 9 := by exact_mod_cast hi
      omega
  unfold findBestMove
  dsimp only
  rw [if_neg hlt10]
  cases hwin : (List.range 9).find? (fun i => b.getD i none = none ∧
      checkWinner (b.set i (some Mark.cross)) = some Mark.cross) with
  | some i =>
    dsimp only
    have hmemr := List.mem_range.mp (List.mem_of_find?_eq_some hwin)
    have hpred := List.find?_some hwin
    simp only [decide_eq_true_eq] at hpred
    refine ⟨rfl, Or.inr ⟨i, hmemr, rfl, hpred.1⟩, fun _ => ?_⟩
    omega
  | none =>
    dsimp only
    cases hblock : (List.range 9).find? (fun i => b.getD i none = none ∧
        checkWinner (b.set i (some Mark.circle)) = some Mark.circle) with
    | some i =>
      dsimp only
      have hmemr := List.mem_range.mp (List.mem_of_find?_eq_some hblock)
      have hpred := List.find?_some hblock
      simp only [decide_eq_true_eq] at hpred
      refine ⟨rfl, Or.inr ⟨i, hmemr, rfl, hpred.1⟩, fun _ => ?_⟩
      omega
    | none =>
      dsimp only
      by_cases hbm :
          (minimax b (useDepth ai) true Score.negInf Score.posInf ai pm).2
            = -1
      · rw [if_pos hbm]
        by_cases hc4 : b.getD 4 none = none
        · rw [if_pos hc4]
          refine ⟨rfl, Or.inr ⟨4, by omega, rfl, hc4⟩, fun _ => ?_⟩
          dsimp only
          decide
        · rw [if_neg hc4]
          by_cases hcor : corners.filter (fun i => b.getD i none = none) = []
          · rw [if_neg (by simpa using hcor)]
            by_cases hemp : (List.range 9).filter
                (fun i => b.getD i none = none) = []
            · rw [if_neg (by simpa using hemp)]
              refine ⟨rfl, Or.inl hbm, fun hex => ?_⟩
              obtain ⟨i, hi, hie⟩ := hex
              rw [List.filter_eq_nil_iff] at hemp
              exact absurd (by simpa using hie)
                (by simpa using hemp i (List.mem_range.mpr hi))
            · rw [if_pos hemp]
              have hmem := getD_mem_of_ne_nil _ c2 hemp
              rw [List.mem_filter] at hmem
              refine ⟨rfl, Or.inr ⟨_, List.mem_range.mp hmem.1, rfl,
                by simpa using hmem.2⟩, fun _ => ?_⟩
              omega
          · rw [if_pos hcor]
            have hmem := getD_mem_of_ne_nil _ c1 hcor
            rw [List.mem_filter] at hmem
            have hcor9 : ∀ y ∈ corners, y < 9 := by decide
            have hlt9 := hcor9 _ hmem.1
            refine ⟨rfl, Or.inr ⟨_, hlt9, rfl, by simpa using hmem.2⟩,
              fun _ => ?_⟩
            omega
      · rw [if_neg hbm]
        exact ⟨rfl, hshape, fun _ => hbm⟩

theorem winReloc_spec (b : TBoard) (ij : Nat × Nat)
    (h : winReloc b = some ij) :
    ij.1 < 9 ∧ b.getD ij.1 none = none ∧ ij.2 < 9 ∧
      b.getD ij.2 none = some Mark.cross := by
  obtain ⟨i, hi, hfi⟩ := List.exists_of_findSome?_eq_some h
  rw [List.mem_range] at hi
  by_cases he : b.getD i none = none
  · rw [if_pos he] at hfi
    cases hf : (List.range 9).find? (fun j =>
        b.getD j none = some Mark.cross ∧
        checkWinner ((b.set j none).set i (some Mark.cross))
          = some Mark.cross) with
    | none => rw [hf] at hfi; cases hfi
    | some j =>
      rw [hf] at hfi
      have hij : ij = (i, j) := by
        simpa using hfi.symm
      have hj9 := List.mem_range.mp (List.mem_of_find?_eq_some hf)
      have hpred := List.find?_some hf
      simp only [decide_eq_true_eq] at hpred
      rw [hij]
      exact ⟨hi, he, hj9, hpred.1⟩
  · rw [if_neg he] at hfi; cases hfi

theorem blockIndex_spec (b : TBoard) (i : Nat) (h : blockIndex b = some i) :
    i < 9 ∧ b.getD i none = none := by
  have hm := List.mem_range.mp (List.mem_of_find?_eq_some h)
  have hpred := List.find?_some h
  simp only [decide_eq_true_eq] at hpred
  exact ⟨hm, hpred.1⟩

/-! ### Reachable states and the live-mark / winner invariant (C7, C10) -/

/-- The invariant maintained by every reachable tic-tac-toe state: the
board stays 9 cells, the two counters equal the actual live-mark counts
on the board, both are at most 3, and `gameOver` holds exactly when a
winner has been recorded. -/
def TInv (s : TicTacToeState) : Prop :=
  s.board.length = 9 ∧
  s.playerMarks = s.board.count (some Mark.circle) ∧
  s.aiMarks = s.board.count (some Mark.cross) ∧
  s.playerMarks ≤ 3 ∧
  s.aiMarks ≤ 3 ∧
  s.gameOver = s.winner.isSome

/-- States reachable in the tic-tac-toe game: an initialized game
(`resetGame`, any random opening), closed under player clicks on the 9
rendered cells and under AI turns (the `useEffect` fires `aiMove` only
when it is the AI's turn and the game is not over). -/
inductive TReach : TicTacToeState → Prop where
  | init (k : Nat) : TReach (resetGame k)
  | player (s : TicTacToeState) (i : Nat) (hi : i < 9) (hs : TReach s) :
      TReach (handleCellClick s i)
  | ai (s : TicTacToeState) (cRel c1 c2 : Nat) (hs : TReach s)
      (ht : s.isPlayerTurn = false) (hg : s.gameOver = false) :
      TReach (aiMove s cRel c1 c2)

theorem TInv_resetGame (k : Nat) : TInv (resetGame k) := by
  have h5 : k % 5 < 5 := Nat.mod_lt _ (by decide)
  have hm : firstMoves.getD (k % 5) 0 < 9 := by
    have hall : ∀ j, j < 5 → firstMoves.getD j 0 < 9 := by decide
    exact hall _ h5
  have hlen0 : (List.replicate 9 (none : Option Mark)).length = 9 :=
    List.length_replicate 9 none
  have hget : (List.replicate 9 (none : Option Mark)).getD
      (firstMoves.getD (k % 5) 0) none = none := by
    rw [List.getD_eq_getElem?_getD]
    cases hx : (List.replicate 9 (none : Option Mark))[firstMoves.getD
        (k % 5) 0]? with
    | none => rfl
    | some v =>
      have hv := List.eq_of_mem_replicate (List.getElem?_mem hx)
      rw [hv]
      rfl
  refine ⟨?_, ?_, ?_, by simp [resetGame], by simp [resetGame], rfl⟩
  · rw [resetGame]
    dsimp only
    rw [List.length_set, hlen0]
  · rw [resetGame]
    dsimp only
    rw [count_set_fill _ _ (by rw [hlen0]; exact hm) hget Mark.cross
      Mark.circle]
    simp [List.count_replicate]
  · rw [resetGame]
    dsimp only
    rw [count_set_fill _ _ (by rw [hlen0]; exact hm) hget Mark.cross
      Mark.cross]
    simp [List.count_replicate]

theorem TInv_aiMoveFinish (s : TicTacToeState) (nb : TBoard)
    (hlen : nb.length = 9)
    (hpc : s.playerMarks = nb.count (some Mark.circle))
    (hcross : nb.count (some Mark.cross)
      = if s.aiMarks < 3 then s.aiMarks + 1 else s.aiMarks)
    (hpb : s.playerMarks ≤ 3) (hab : s.aiMarks ≤ 3)
    (hg : s.gameOver = false) (hw : s.winner = none) :
    TInv (aiMoveFinish s nb) := by
  unfold aiMoveFinish
  split
  · exact ⟨hlen, hpc, hcross.symm, hpb, by dsimp only; split <;> omega, rfl⟩
  · exact ⟨hlen, hpc, hcross.symm, hpb, by dsimp only; split <;> omega,
      by rw [hg, hw]; rfl⟩

theorem TInv_handleCellClick (s : TicTacToeState) (i : Nat) (hi : i < 9)
    (h : TInv s) : TInv (handleCellClick s i) := by
  obtain ⟨hlen, hpc, hac, hpb, hab, hgw⟩ := h
  unfold handleCellClick
  split
  · exact ⟨hlen, hpc, hac, hpb, hab, hgw⟩
  next hguard =>
    split
    · exact ⟨hlen, hpc, hac, hpb, hab, hgw⟩
    next hg2 =>
      split
      · next hcond =>
        have hempty : s.board.getD i none = none := by
          by_contra hne
          exact hguard (Or.inl hne)
        by_cases hpm3 : 3 ≤ s.playerMarks
        · -- the player is at the cap: evict the findIndex mark
          have hpm : s.playerMarks = 3 := le_antisymm hpb hpm3
          have hmem : some Mark.circle ∈ s.board := by
            rcases hcond with hlt | hmem
            · omega
            · exact hmem
          obtain ⟨f, hf, hflt, hfval⟩ :=
            findIdx?_mark s.board Mark.circle hmem
          rw [if_pos hpm3, hf]
          have hfi : ¬ f = i := fun he => by
            rw [he, hempty] at hfval
            cases hfval
          have hlen1 : (s.board.set f none).length = 9 := by
            rw [List.length_set, hlen]
          have hib1 : (s.board.set f none).getD i none = none := by
            rw [getD_set_ne_tb _ f i hfi]
            exact hempty
          have hcc1 : s.board.count (some Mark.circle)
              = (s.board.set f none).count (some Mark.circle) + 1 := by
            have := count_set_clear s.board f hflt Mark.circle hfval
              Mark.circle
            simpa using this
          have hcx1 : s.board.count (some Mark.cross)
              = (s.board.set f none).count (some Mark.cross) := by
            have := count_set_clear s.board f hflt Mark.circle hfval
              Mark.cross
            simpa using this
          have hcc2 : ((s.board.set f none).set i
                (some Mark.circle)).count (some Mark.circle)
              = (s.board.set f none).count (some Mark.circle) + 1 := by
            have := count_set_fill (s.board.set f none) i
              (by rw [hlen1]; exact hi) hib1 Mark.circle Mark.circle
            simpa using this
          have hcx2 : ((s.board.set f none).set i
                (some Mark.circle)).count (some Mark.cross)
              = (s.board.set f none).count (some Mark.cross) := by
            have := count_set_fill (s.board.set f none) i
              (by rw [hlen1]; exact hi) hib1 Mark.circle Mark.cross
            simpa using this
          have hlen2 : ((s.board.set f none).set i
                (some Mark.circle)).length = 9 := by
            rw [List.length_set, hlen1]
          dsimp only
          split
          · exact ⟨hlen2, by dsimp only; split <;> omega,
              by dsimp only; omega, by dsimp only; split <;> omega, hab,
              rfl⟩
          · exact ⟨hlen2, by dsimp only; split <;> omega,
              by dsimp only; omega, by dsimp only; split <;> omega, hab,
              hgw⟩
        · -- the player is under the cap: plain placement
          rw [if_neg hpm3]
          have hcc2 : (s.board.set i (some Mark.circle)).count
                (some Mark.circle)
              = s.board.count (some Mark.circle) + 1 := by
            have := count_set_fill s.board i (by rw [hlen]; exact hi)
              hempty Mark.circle Mark.circle
            simpa using this
          have hcx2 : (s.board.set i (some Mark.circle)).count
                (some Mark.cross) = s.board.count (some Mark.cross) := by
            have := count_set_fill s.board i (by rw [hlen]; exact hi)
              hempty Mark.circle Mark.cross
            simpa using this
          have hlen2 : (s.board.set i (some Mark.circle)).length = 9 := by
            rw [List.length_set, hlen]
          dsimp only
          split
          · exact ⟨hlen2, by dsimp only; split <;> omega,
              by dsimp only; omega, by dsimp only; split <;> omega, hab,
              rfl⟩
          · exact ⟨hlen2, by dsimp only; split <;> omega,
              by dsimp only; omega, by dsimp only; split <;> omega, hab,
              hgw⟩
      · exact ⟨hlen, hpc, hac, hpb, hab, hgw⟩

theorem findIdx?_some_spec (l : TBoard) (m : Mark) (f : Nat)
    (h : l.findIdx? (· = some m) = some f) :
    f < l.length ∧ l.getD f none = some m := by
  have h2 := List.findIdx?_eq_some_iff_findIdx_eq.mp h
  refine ⟨h2.1, ?_⟩
  have hw : List.findIdx (fun x => decide (x = some m)) l < l.length := by
    rw [h2.2]
    exact h2.1
  have h3 := @List.findIdx_getElem _ (fun x => decide (x = some m)) l hw
  simp only [h2.2] at h3
  rw [List.getD_eq_getElem l none h2.1]
  simpa using h3

/-- Moving a mark `m` from cell `f` to an empty cell `t` keeps the
length and every mark count unchanged. -/
theorem count_relocate (b : TBoard) (f t : Nat) (m : Mark)
    (hlen : b.length = 9) (hf9 : f < 9) (ht9 : t < 9)
    (hfv : b.getD f none = some m) (htv : b.getD t none = none) :
    ((b.set f none).set t (some m)).length = 9 ∧
    ((b.set f none).set t (some m)).count (some m) = b.count (some m) ∧
    (∀ x : Mark, ¬ x = m →
      ((b.set f none).set t (some m)).count (some x)
        = b.count (some x)) := by
  have hft : ¬ f = t := fun he => by rw [he, htv] at hfv; cases hfv
  have hlen1 : (b.set f none).length = 9 := by rw [List.length_set, hlen]
  have hib1 : (b.set f none).getD t none = none := by
    rw [getD_set_ne_tb _ _ _ hft]
    exact htv
  refine ⟨by rw [List.length_set, hlen1], ?_, ?_⟩
  · have h1 := count_set_clear b f (by rw [hlen]; exact hf9) m hfv m
    have h2 := count_set_fill (b.set f none) t (by rw [hlen1]; exact ht9)
      hib1 m m
    simp at h1 h2
    omega
  · intro x hx
    have hmx : ¬ m = x := fun he => hx he.symm
    have h1 := count_set_clear b f (by rw [hlen]; exact hf9) m hfv x
    have h2 := count_set_fill (b.set f none) t (by rw [hlen1]; exact ht9)
      hib1 m x
    simp [hmx] at h1 h2
    omega

theorem TInv_aiMove (s : TicTacToeState) (cRel c1 c2 : Nat)
    (h : TInv s) (hg : s.gameOver = false) : TInv (aiMove s cRel c1 c2) := by
  obtain ⟨hlen, hpc, hac, hpb, hab, hgw⟩ := h
  have hw : s.winner = none := by
    cases hwc : s.winner
    · rfl
    · rw [hwc, hg] at hgw; cases hgw
  unfold aiMove
  split
  · next hai3 =>
    have hai : s.aiMarks = 3 := le_antisymm hab hai3
    have hccount : s.board.count (some Mark.cross) = 3 := by omega
    split
    · next ij hwr =>
      obtain ⟨hi9, hie, hj9, hjv⟩ := winReloc_spec s.board ij hwr
      obtain ⟨hL, hCm, hCo⟩ := count_relocate s.board ij.2 ij.1 Mark.cross
        hlen hj9 hi9 hjv hie
      refine ⟨hL, ?_, ?_, hpb, hab, rfl⟩
      · dsimp only
        rw [hpc, hCo Mark.circle (by decide)]
      · dsimp only
        rw [hac, hCm]
    · next hwr =>
      split
      · next i f hbi hfi =>
        obtain ⟨hi9, hie⟩ := blockIndex_spec s.board i hbi
        obtain ⟨hflt, hfval⟩ := findIdx?_some_spec s.board Mark.cross f hfi
        obtain ⟨hL, hCm, hCo⟩ := count_relocate s.board f i Mark.cross
          hlen (by omega) hi9 hfval hie
        refine ⟨hL, ?_, ?_, hpb, hab, ?_⟩
        · dsimp only
          rw [hpc, hCo Mark.circle (by decide)]
        · dsimp only
          rw [hac, hCm]
        · dsimp only
          rw [hg, hw]
          rfl
      · -- no winning and no blocking relocation: default relocation
        have hmemx : some Mark.cross ∈ s.board :=
          List.count_pos_iff.mp (by omega)
        obtain ⟨f, hff, hflt, hfval⟩ := findIdx?_mark s.board Mark.cross
          hmemx
        rw [hff]
        dsimp only
        have hcross3 : ∀ nb : TBoard, nb.count (some Mark.cross) = 3 →
            nb.count (some Mark.cross)
              = if s.aiMarks < 3 then s.aiMarks + 1 else s.aiMarks := by
          intro nb hnb
          rw [hai]
          simpa using hnb
        by_cases h4 : (4 : Nat) ∈ (List.range 9).filter
            (fun i => s.board.getD i none = none)
        · rw [if_pos h4]
          have h4e : s.board.getD 4 none = none := by
            have := (List.mem_filter.mp h4).2
            simpa using this
          obtain ⟨hL, hCm, hCo⟩ := count_relocate s.board f 4 Mark.cross
            hlen (by omega) (by omega) hfval h4e
          exact TInv_aiMoveFinish s _ hL
            (by rw [hpc, hCo Mark.circle (by decide)])
            (hcross3 _ (by rw [hCm]; omega)) hpb hab hg hw
        · rw [if_neg h4]
          by_cases hne : (List.range 9).filter
              (fun i => s.board.getD i none = none) = []
          · exfalso
            obtain ⟨iE, hiE, hieE⟩ := exists_empty_cell s.board hlen
              (by omega)
            have : iE ∈ (List.range 9).filter
                (fun i => s.board.getD i none = none) :=
              List.mem_filter.mpr ⟨List.mem_range.mpr hiE,
                by simp only [decide_eq_true_eq]; exact hieE⟩
            rw [hne] at this
            cases this
          · rw [if_pos (by simpa using hne)]
            have hmem := getD_mem_of_ne_nil _ cRel hne
            have hmf := List.mem_filter.mp hmem
            have ht9 := List.mem_range.mp hmf.1
            have hte : s.board.getD
                (((List.range 9).filter
                  (fun i => s.board.getD i none = none)).getD
                  (cRel % ((List.range 9).filter
                    (fun i => s.board.getD i none = none)).length) 0)
                none = none := by
              have hp2 := hmf.2
              simp only [decide_eq_true_eq] at hp2
              exact hp2
            obtain ⟨hL, hCm, hCo⟩ := count_relocate s.board f _ Mark.cross
              hlen (by omega) ht9 hfval hte
            exact TInv_aiMoveFinish s _ hL
              (by rw [hpc, hCo Mark.circle (by decide)])
              (hcross3 _ (by rw [hCm]; omega)) hpb hab hg hw
  · next hai3 =>
    have hai : s.aiMarks < 3 := by omega
    obtain ⟨hb2, hshape, hne⟩ := findBestMove_shape s.board s.aiMarks
      s.playerMarks c1 c2 hai
    have hex : ∃ i, i < 9 ∧ s.board.getD i none = none :=
      exists_empty_cell s.board hlen (by omega)
    have hne' := hne hex
    rcases hshape with hm1 | ⟨i, hi9, hmi, hie⟩
    · exact absurd hm1 hne'
    · have hnb : (if ¬ (findBestMove s.board s.aiMarks s.playerMarks
            c1 c2).1 = -1 then
          (findBestMove s.board s.aiMarks s.playerMarks c1 c2).2.set
            (findBestMove s.board s.aiMarks s.playerMarks c1 c2).1.toNat
            (some Mark.cross)
        else (findBestMove s.board s.aiMarks s.playerMarks c1 c2).2)
          = s.board.set i (some Mark.cross) := by
        rw [if_pos hne', hb2, hmi]
        simp
      dsimp only
      rw [hnb]
      have hcc : (s.board.set i (some Mark.cross)).count
          (some Mark.circle) = s.board.count (some Mark.circle) := by
        have := count_set_fill s.board i (by rw [hlen]; exact hi9) hie
          Mark.cross Mark.circle
        simpa using this
      have hcx : (s.board.set i (some Mark.cross)).count
          (some Mark.cross) = s.board.count (some Mark.cross) + 1 := by
        have := count_set_fill s.board i (by rw [hlen]; exact hi9) hie
          Mark.cross Mark.cross
        simpa using this
      exact TInv_aiMoveFinish s _ (by rw [List.length_set, hlen])
        (by rw [hpc, hcc]) (by rw [hcx, if_pos hai]; omega) hpb hab hg hw

theorem TReach_TInv (s : TicTacToeState) (h : TReach s) : TInv s := by
  induction h with
  | init k => exact TInv_resetGame k
  | player s i hi hs ih => exact TInv_handleCellClick s i hi ih
  | ai s cRel c1 c2 hs ht hg ih => exact TInv_aiMove s cRel c1 c2 ih hg

/-! ### Two-sided eviction behavior (C1) -/

theorem getD_set_self_tb (l : TBoard) (i : Nat) (hi : i < l.length)
    (v : Option Mark) : (l.set i v).getD i none = v := by
  rw [List.getD_eq_getElem?_getD, List.getElem?_set_self hi]
  rfl

/-- Board-level facts of relocating the AI mark at `f` to the empty cell
`t`: cell `f` is cleared, every other `'×'` survives, and the `'×'`
count is unchanged. -/
theorem relocate_board_facts (b : TBoard) (f t : Nat) (hlen : b.length = 9)
    (hf9 : f < 9) (ht9 : t < 9)
    (hfv : b.getD f none = some Mark.cross) (htv : b.getD t none = none) :
    ((b.set f none).set t (some Mark.cross)).getD f none = none ∧
    (∀ j, ¬ j = f → b.getD j none = some Mark.cross →
      ((b.set f none).set t (some Mark.cross)).getD j none
        = some Mark.cross) ∧
    ((b.set f none).set t (some Mark.cross)).count (some Mark.cross)
      = b.count (some Mark.cross) := by
  have hft : ¬ f = t := fun he => by rw [he, htv] at hfv; cases hfv
  have htf : ¬ t = f := fun he => hft he.symm
  refine ⟨?_, ?_,
    (count_relocate b f t Mark.cross hlen hf9 ht9 hfv htv).2.1⟩
  · rw [getD_set_ne_tb _ t f htf, getD_set_self_tb _ f (by omega) none]
  · intro j hj hjv
    have hjt : ¬ j = t := fun he => by rw [he, htv] at hjv; cases hjv
    rw [getD_set_ne_tb _ t j (fun he => hjt he.symm),
      getD_set_ne_tb _ f j (fun he => hj he.symm)]
    exact hjv

theorem aiMoveFinish_fields (s : TicTacToeState) (nb : TBoard) :
    (aiMoveFinish s nb).board = nb ∧
    (aiMoveFinish s nb).aiMarks
      = (if s.aiMarks < 3 then s.aiMarks + 1 else s.aiMarks) := by
  unfold aiMoveFinish
  split <;> exact ⟨rfl, rfl⟩

/-- C1 (amended): when a side that already holds 3 live marks places or
relocates a mark, the mark removed is that side's surviving mark at the
*lowest board index* — the source's `findIndex` over array positions,
not placement order — and that side's live-mark count remains 3.  First
conjunct: the player's `handleCellClick` eviction.  Second conjunct: the
AI's blocking / default relocation paths clear exactly the `findIndex`
`'×'`, keep every other `'×'`, and keep the count and counter at 3.
Third conjunct: the AI's winning-relocation path (which instead removes
whichever of its marks completes the win) also keeps the count and
counter at 3. -/
theorem eviction_lowest_index :
    (∀ (s : TicTacToeState) (index : Nat), index < 9 →
      s.board.length = 9 → s.playerMarks = 3 →
      s.board.count (some Mark.circle) = 3 →
      s.board.getD index none = none → s.isPlayerTurn = true →
      s.gameOver = false →
      ∃ f, s.board.findIdx? (· = some Mark.circle) = some f ∧
        (handleCellClick s index).board
          = (s.board.set f none).set index (some Mark.circle) ∧
        (handleCellClick s index).board.count (some Mark.circle) = 3 ∧
        (handleCellClick s index).playerMarks = 3) ∧
    (∀ (s : TicTacToeState) (cRel c1 c2 f : Nat),
      s.board.length = 9 → s.aiMarks = 3 →
      s.board.count (some Mark.cross) = 3 →
      s.board.count (some Mark.circle) ≤ 3 →
      winReloc s.board = none →
      s.board.findIdx? (· = some Mark.cross) = some f →
      (aiMove s cRel c1 c2).board.getD f none = none ∧
      (∀ j, ¬ j = f → s.board.getD j none = some Mark.cross →
        (aiMove s cRel c1 c2).board.getD j none = some Mark.cross) ∧
      (aiMove s cRel c1 c2).board.count (some Mark.cross) = 3 ∧
      (aiMove s cRel c1 c2).aiMarks = 3) ∧
    (∀ (s : TicTacToeState) (cRel c1 c2 : Nat) (ij : Nat × Nat),
      s.board.length = 9 → s.aiMarks = 3 →
      s.board.count (some Mark.cross) = 3 →
      winReloc s.board = some ij →
      (aiMove s cRel c1 c2).board.count (some Mark.cross) = 3 ∧
      (aiMove s cRel c1 c2).aiMarks = 3) := by
  refine ⟨handleCellClick_eviction, ?_, ?_⟩
  · intro s cRel c1 c2 f hlen hai hcx hcc hwr hf
    obtain ⟨hflt, hfval⟩ := findIdx?_some_spec s.board Mark.cross f hf
    have hf9 : f < 9 := by omega
    unfold aiMove
    rw [if_pos (by omega : 3 ≤ s.aiMarks), hwr]
    dsimp only
    rw [hf]
    cases hbi : blockIndex s.board with
    | some i =>
      dsimp only
      obtain ⟨hi9, hie⟩ := blockIndex_spec s.board i hbi
      obtain ⟨hA, hB, hC⟩ := relocate_board_facts s.board f i hlen hf9 hi9
        hfval hie
      exact ⟨hA, fun j hj hjv => hB j hj hjv, by rw [hC]; exact hcx, hai⟩
    | none =>
      dsimp only
      by_cases h4 : (4 : Nat) ∈ (List.range 9).filter
          (fun i => s.board.getD i none = none)
      · rw [if_pos h4]
        have h4e : s.board.getD 4 none = none := by
          have := (List.mem_filter.mp h4).2
          simpa using this
        obtain ⟨hA, hB, hC⟩ := relocate_board_facts s.board f 4 hlen hf9
          (by omega) hfval h4e
        have hff := aiMoveFinish_fields s
          ((s.board.set f none).set 4 (some Mark.cross))
        refine ⟨by rw [hff.1]; exact hA,
          fun j hj hjv => by rw [hff.1]; exact hB j hj hjv,
          by rw [hff.1, hC]; exact hcx, ?_⟩
        rw [hff.2, hai]
        decide
      · rw [if_neg h4]
        by_cases hne : (List.range 9).filter
            (fun i => s.board.getD i none = none) = []
        · exfalso
          obtain ⟨iE, hiE, hieE⟩ := exists_empty_cell s.board hlen
            (by omega)
          have hEm : iE ∈ (List.range 9).filter
              (fun i => s.board.getD i none = none) :=
            List.mem_filter.mpr ⟨List.mem_range.mpr hiE,
              by simp only [decide_eq_true_eq]; exact hieE⟩
          rw [hne] at hEm
          cases hEm
        · rw [if_pos (by simpa using hne)]
          have hmem := getD_mem_of_ne_nil _ cRel hne
          have hmf := List.mem_filter.mp hmem
          have ht9 := List.mem_range.mp hmf.1
          have hte : s.board.getD
              (((List.range 9).filter
                (fun i => s.board.getD i none = none)).getD
                (cRel % ((List.range 9).filter
                  (fun i => s.board.getD i none = none)).length) 0)
              none = none := by
            have hp2 := hmf.2
            simp only [decide_eq_true_eq] at hp2
            exact hp2
          obtain ⟨hA, hB, hC⟩ := relocate_board_facts s.board f _ hlen hf9
            ht9 hfval hte
          have hff := aiMoveFinish_fields s
            ((s.board.set f none).set
              (((List.range 9).filter
                (fun i => s.board.getD i none = none)).getD
                (cRel % ((List.range 9).filter
                  (fun i => s.board.getD i none = none)).length) 0)
              (some Mark.cross))
          refine ⟨by rw [hff.1]; exact hA,
            fun j hj hjv => by rw [hff.1]; exact hB j hj hjv,
            by rw [hff.1, hC]; exact hcx, ?_⟩
          rw [hff.2, hai]
          decide
  · intro s cRel c1 c2 ij hlen hai hcx hwr
    obtain ⟨hi9, hie, hj9, hjv⟩ := winReloc_spec s.board ij hwr
    obtain ⟨-, -, hC⟩ := relocate_board_facts s.board ij.2 ij.1 hlen hj9
      hi9 hjv hie
    unfold aiMove
    rw [if_pos (by omega : 3 ≤ s.aiMarks), hwr]
    dsimp only
    refine ⟨?_, hai⟩
    dsimp only
    rw [hC]
    exact hcx

/-- The AI at the cap with marks at 1, 3 and 8 — no two of them share a
line, so no single relocation wins and the default relocation runs. -/
def aiRelocState : TicTacToeState :=
  { board := [none, some Mark.cross, none, some Mark.cross, none, none,
      none, none, some Mark.cross]
    isPlayerTurn := false
    gameOver := false
    winner := none
    playerMarks := 0
    aiMarks := 3 }

/-- The AI at the cap with marks at 1, 3 and 5 — relocating the mark at
1 to the center completes the middle row, so the winning path runs. -/
def aiWinState : TicTacToeState :=
  { board := [none, some Mark.cross, none, some Mark.cross, none,
      some Mark.cross, none, none, none]
    isPlayerTurn := false
    gameOver := false
    winner := none
    playerMarks := 0
    aiMarks := 3 }

/-- C1 amended-claim witness: the player eviction on `fifoState` (marks
at 1, 3, 5, clicking 7), the AI default relocation on `aiRelocState`
(the lowest mark index 1 is cleared, the mark at 3 survives, count and
counter stay 3), and the AI winning relocation on `aiWinState` (count
and counter stay 3). -/
theorem eviction_lowest_index_witness :
    (∃ f, fifoState.board.findIdx? (· = some Mark.circle) = some f ∧
      (handleCellClick fifoState 7).board
        = (fifoState.board.set f none).set 7 (some Mark.circle) ∧
      (handleCellClick fifoState 7).board.count (some Mark.circle) = 3 ∧
      (handleCellClick fifoState 7).playerMarks = 3) ∧
    ((aiMove aiRelocState 0 0 0).board.getD 1 none = none ∧
      (aiMove aiRelocState 0 0 0).board.getD 3 none = some Mark.cross ∧
      (aiMove aiRelocState 0 0 0).board.count (some Mark.cross) = 3 ∧
      (aiMove aiRelocState 0 0 0).aiMarks = 3) ∧
    ((aiMove aiWinState 0 0 0).board.count (some Mark.cross) = 3 ∧
      (aiMove aiWinState 0 0 0).aiMarks = 3) := by
  refine ⟨eviction_lowest_index.1 fifoState 7 (by decide) (by decide) rfl
    (by decide) (by decide) rfl rfl, ?_, ?_⟩
  · have h := eviction_lowest_index.2.1 aiRelocState 0 0 0 1 (by decide)
      rfl (by decide) (by decide) (by decide) (by decide)
    exact ⟨h.1, h.2.1 3 (by decide) (by decide), h.2.2⟩
  · exact eviction_lowest_index.2.2 aiWinState 0 0 0 (4, 1) (by decide)
      rfl (by decide) (by decide)

/-- C7: in every reachable tic-tac-toe state, each side's live-mark
count — the tracked counters `playerMarks`/`aiMarks` and the actual
number of that side's marks on the board — is between 0 and 3 inclusive
(the lower bound is inherent in the `Nat` counts), and the counters
agree with the board. -/
theorem tictactoe_marks_bounded (s : TicTacToeState) (h : TReach s) :
    s.playerMarks = s.board.count (some Mark.circle) ∧
    s.aiMarks = s.board.count (some Mark.cross) ∧
    s.playerMarks ≤ 3 ∧ s.aiMarks ≤ 3 ∧
    s.board.count (some Mark.circle) ≤ 3 ∧
    s.board.count (some Mark.cross) ≤ 3 := by
  obtain ⟨_, hpc, hac, hpb, hab, _⟩ := TReach_TInv s h
  exact ⟨hpc, hac, hpb, hab, by omega, by omega⟩

/-- C7 witness: the invariant at the freshly reset game (AI opening mark
at cell 0). -/
theorem tictactoe_marks_bounded_witness :
    (resetGame 0).playerMarks
        = (resetGame 0).board.count (some Mark.circle) ∧
    (resetGame 0).aiMarks = (resetGame 0).board.count (some Mark.cross) ∧
    (resetGame 0).playerMarks ≤ 3 ∧ (resetGame 0).aiMarks ≤ 3 ∧
    (resetGame 0).board.count (some Mark.circle) ≤ 3 ∧
    (resetGame 0).board.count (some Mark.cross) ≤ 3 :=
  tictactoe_marks_bounded (resetGame 0) (TReach.init 0)

/-- C10: in every reachable tic-tac-toe state, `gameOver` holds only
together with a non-null winner equal to `'○'` or `'×'`, and a running
game has no winner; `winner` only ever receives a mark read from a board
line or the literal `'×'`, never a draw value, so the game terminates
only by a three-in-a-row win. -/
theorem tictactoe_no_draw (s : TicTacToeState) (h : TReach s) :
    (s.gameOver = true →
      s.winner = some Mark.circle ∨ s.winner = some Mark.cross) ∧
    (s.gameOver = false → s.winner = none) := by
  obtain ⟨_, _, _, _, _, hgw⟩ := TReach_TInv s h
  constructor
  · intro hgo
    rw [hgo] at hgw
    cases hwc : s.winner with
    | none => rw [hwc] at hgw; cases hgw
    | some m =>
      cases m
      · exact Or.inl rfl
      · exact Or.inr rfl
  · intro hgo
    rw [hgo] at hgw
    cases hwc : s.winner with
    | none => rfl
    | some m => rw [hwc] at hgw; cases hgw

/-- C10 witness: the implications at the freshly reset game. -/
theorem tictactoe_no_draw_witness :
    ((resetGame 0).gameOver = true →
      (resetGame 0).winner = some Mark.circle ∨
        (resetGame 0).winner = some Mark.cross) ∧
    ((resetGame 0).gameOver = false → (resetGame 0).winner = none) :=
  tictactoe_no_draw (resetGame 0) (TReach.init 0)

end TicTacToe

end MyChatbot
